import Mathlib

/-!
Verification of the configuration-loading routine of the goa.design
front-end server (`appengine/server/config.go`).

The routine under study is `readConfig`:

  - it opens the fixed file `config.json` (`os.Open`); an open failure is
    returned unchanged;
  - on success it JSON-decodes the stream into the pre-existing package-global
    `config appConfig` value (`json.NewDecoder(r).Decode(&config)`);
  - after a successful decode it fills in defaults for the three string
    fields `WebRoot`, `HookPath` and `GCSBase`;
  - the file handle is released by `defer r.Close()` on every exit path
    reached after the open succeeded.

The embedding models the file system interaction as a `FileRead` input
(open error / syntactically invalid JSON / a parsed JSON value), the Go
`map[string]string` fields as `Option (List (String × String))` association
lists (`none` is Go's nil map), and `weasel.DefaultStorage.Base` — the
injected external storage client's base URL — as an explicit `base`
parameter.

The decoder semantics follow the documented behaviour of Go's
`encoding/json` package, which the source calls:

  - `Decoder.Decode` first scans one complete JSON value; a syntax error is
    reported before anything is written into the target (modelled by
    `FileRead.invalidJson`);
  - on a type mismatch ("the JSON value is not appropriate for a given
    target type") the decoder skips that field, saves the error, and
    completes the unmarshalling as best it can, so the target CAN be
    partially updated even though `Decode` returns an error;
  - object keys are matched to struct fields by their `json:"..."` tags,
    case-insensitively (the tags here are all lower-case ASCII, so the
    match is `key.toLower = tag`); unknown keys are ignored;
  - a JSON `null` leaves a string field unchanged and sets a map field to
    nil; decoding an object into a non-nil map adds to the existing map;
  - inside a `map[string]string`, each key is always stored: the element
    value is the JSON string if the value is a string, and the zero string
    (with a saved type error) otherwise; `null` stores the zero string
    without an error.
-/

/-- A parsed JSON document. The numeric payload is irrelevant to every
target type of `appConfig` (all strings and string maps), so numbers carry
an `Int`. -/
inductive Json where
  | null
  | bool (b : Bool)
  | num (n : Int)
  | str (s : String)
  | arr (elems : List Json)
  | obj (fields : List (String × Json))

/-- Go representation of `map[string]string`: `none` is the nil map, `some l`
an allocated map whose entries are the association list `l` (keys distinct). -/
abbrev StrMap := Option (List (String × String))

/-- The frontend server config (`appConfig` in `config.go`), field for field:
`Redirects`, `Buckets` (maps), `WebRoot`, `Index`, `HookPath`, `GCSBase`. -/
structure AppConfig where
  Redirects : StrMap
  Buckets : StrMap
  WebRoot : String
  Index : String
  HookPath : String
  GCSBase : String
  deriving Repr, DecidableEq

/-- The zero value of `appConfig`: what the package-global `var config`
holds at process start (nil maps, empty strings). -/
def zeroConfig : AppConfig :=
  { Redirects := none, Buckets := none, WebRoot := "", Index := "",
    HookPath := "", GCSBase := "" }

/-- Go map insertion: overwrite the existing key, otherwise append. -/
def insertA : List (String × String) → String → String → List (String × String)
  | [], k, v => [(k, v)]
  | (k₀, v₀) :: rest, k, v =>
    if k₀ = k then (k, v) :: rest else (k₀, v₀) :: insertA rest k v

/-- Decode one JSON value into a struct field of type `string` holding `old`:
a string replaces it, `null` leaves it unchanged, anything else is a saved
type error that leaves it unchanged. Second component is the error flag. -/
def decodeStringJson (old : String) : Json → String × Bool
  | .str s => (s, false)
  | .null => (old, false)
  | _ => (old, true)

/-- Decode one JSON value into an element of a `map[string]string`: the
element starts as the zero string, a string value replaces it, any other
non-null value is a saved type error; the key is stored in every case. -/
def decodeElemString : Json → String × Bool
  | .str s => (s, false)
  | .null => ("", false)
  | _ => ("", true)

/-- One entry of a JSON object being decoded into a `map[string]string`:
the key is stored with the decoded element, and the error flag accumulates. -/
def mapEntryStep (acc : List (String × String) × Bool) (p : String × Json) :
    List (String × String) × Bool :=
  let e := decodeElemString p.2
  (insertA acc.1 p.1 e.1, acc.2 || e.2)

/-- Decode one JSON value into a struct field of type `map[string]string`
holding `old`: `null` sets the map to nil, an object merges its entries into
the existing map (allocating one if nil), anything else is a saved type
error that leaves the field unchanged. -/
def decodeMapJson (old : StrMap) : Json → StrMap × Bool
  | .null => (none, false)
  | .obj entries =>
    let r := entries.foldl mapEntryStep (old.getD [], false)
    (some r.1, r.2)
  | _ => (old, true)

/-- ASCII lower-casing of one character, as Go's case-insensitive field
matching folds the ASCII range. -/
def lowerChar (ch : Char) : Char :=
  if 65 ≤ ch.toNat ∧ ch.toNat ≤ 90 then Char.ofNat (ch.toNat + 32) else ch

/-- ASCII lower-casing of an object key, used to match it against the
lower-case-ASCII `json:"..."` tags the way Go's fold matching does. -/
def lowerKey (s : String) : String :=
  ⟨s.data.map lowerChar⟩

/-- Walk the fields of a JSON object in order, dispatching each key to the
`appConfig` field whose `json:"..."` tag it matches (case-insensitively,
as Go does; the tags are `redirects`, `buckets`, `webroot`, `index`,
`hook`, `gcs`); unknown keys are ignored; type errors are saved in the flag
and decoding continues. -/
def decodeFields : AppConfig → Bool → List (String × Json) → AppConfig × Bool
  | c, err, [] => (c, err)
  | c, err, (k, v) :: rest =>
    let t := lowerKey k
    if t = "redirects" then
      decodeFields { c with Redirects := (decodeMapJson c.Redirects v).1 }
        (err || (decodeMapJson c.Redirects v).2) rest
    else if t = "buckets" then
      decodeFields { c with Buckets := (decodeMapJson c.Buckets v).1 }
        (err || (decodeMapJson c.Buckets v).2) rest
    else if t = "webroot" then
      decodeFields { c with WebRoot := (decodeStringJson c.WebRoot v).1 }
        (err || (decodeStringJson c.WebRoot v).2) rest
    else if t = "index" then
      decodeFields { c with Index := (decodeStringJson c.Index v).1 }
        (err || (decodeStringJson c.Index v).2) rest
    else if t = "hook" then
      decodeFields { c with HookPath := (decodeStringJson c.HookPath v).1 }
        (err || (decodeStringJson c.HookPath v).2) rest
    else if t = "gcs" then
      decodeFields { c with GCSBase := (decodeStringJson c.GCSBase v).1 }
        (err || (decodeStringJson c.GCSBase v).2) rest
    else
      decodeFields c err rest

/-- Decode a parsed JSON value into the existing `appConfig` value `c`
(the target of `Decode(&config)`): an object is decoded field-wise, `null`
has no effect, any other top-level value is a type error leaving `c`
unchanged. -/
def decodeAppConfig (c : AppConfig) : Json → AppConfig × Bool
  | .obj fs => decodeFields c false fs
  | .null => (c, false)
  | _ => (c, true)

/-- What the environment hands `readConfig`: `os.Open` fails with some
error, or the stream's contents are not one syntactically valid JSON value,
or they parse to the value `j`. -/
inductive FileRead where
  | openError (msg : String)
  | invalidJson
  | parsed (j : Json)

/-- The error `readConfig` returns: the `os.Open` error surfaced unchanged,
or a decode error from `json.Decoder.Decode`. -/
inductive LoadError where
  | ioErr (msg : String)
  | decodeErr
  deriving Repr, DecidableEq

/-- File-handle events, to track the `defer r.Close()` of the source. -/
inductive FileEvent where
  | opened
  | closed
  deriving Repr, DecidableEq

/-- Defaulting step 1 of `readConfig`:
`if config.WebRoot == "" { config.WebRoot = "/" }`. -/
def defaultWebRoot (c : AppConfig) : AppConfig :=
  if c.WebRoot = "" then { c with WebRoot := "/" } else c

/-- Defaulting step 2 of `readConfig`: if `config.HookPath` is empty, set it
to the default GCS hook pattern (slash, dash, slash, `hook`, slash, `gcs`). -/
def defaultHookPath (c : AppConfig) : AppConfig :=
  if c.HookPath = "" then { c with HookPath := "/-/hook/gcs" } else c

/-- Defaulting step 3 of `readConfig`:
`if config.GCSBase == "" { config.GCSBase = weasel.DefaultStorage.Base }`,
with the injected `weasel.DefaultStorage.Base` passed as `base`. -/
def defaultGCSBase (base : String) (c : AppConfig) : AppConfig :=
  if c.GCSBase = "" then { c with GCSBase := base } else c

/-- The three defaulting steps in the order the source performs them. -/
def applyDefaults (c : AppConfig) (base : String) : AppConfig :=
  defaultGCSBase base (defaultHookPath (defaultWebRoot c))

/-- The embedding of `readConfig`: given the outcome of opening and parsing
`config.json`, the current value of the package-global `config`, and the
injected `weasel.DefaultStorage.Base`, return the new value of the global,
the returned error, and the trace of file-handle events. An open failure
returns before any handle exists; on the other paths the deferred `Close`
runs exactly once when the function returns. -/
def readConfig (input : FileRead) (c : AppConfig) (base : String) :
    AppConfig × Option LoadError × List FileEvent :=
  match input with
  | .openError msg => (c, some (.ioErr msg), [])
  | .invalidJson => (c, some .decodeErr, [.opened, .closed])
  | .parsed j =>
    let r := decodeAppConfig c j
    if r.2 then (r.1, some .decodeErr, [.opened, .closed])
    else (applyDefaults r.1 base, none, [.opened, .closed])

/-- Encoding of a `map[string]string` field by Go's `json.Marshal`: a nil
map is emitted as `null`, an allocated map as an object of string values.
(Go emits map keys in sorted order; the association-list model leaves the
order abstract, and theorems quantify over every key-distinct order.) -/
def encodeStrMap : StrMap → Json
  | none => Json.null
  | some l => Json.obj (l.map fun p => (p.1, Json.str p.2))

/-- Encoding of an `appConfig` value by Go's `json.Marshal`: one object
field per struct field, in declaration order, under the declared
`json:"..."` tags. -/
def encodeAppConfig (c : AppConfig) : Json :=
  Json.obj
    [("redirects", encodeStrMap c.Redirects),
     ("buckets", encodeStrMap c.Buckets),
     ("webroot", Json.str c.WebRoot),
     ("index", Json.str c.Index),
     ("hook", Json.str c.HookPath),
     ("gcs", Json.str c.GCSBase)]

/-! Helper lemmas: evaluation of `lowerKey` on the six literal tags. -/

@[simp] lemma lowerKey_redirects : lowerKey "redirects" = "redirects" := rfl

@[simp] lemma lowerKey_buckets : lowerKey "buckets" = "buckets" := rfl

@[simp] lemma lowerKey_webroot : lowerKey "webroot" = "webroot" := rfl

@[simp] lemma lowerKey_index : lowerKey "index" = "index" := rfl

@[simp] lemma lowerKey_hook : lowerKey "hook" = "hook" := rfl

@[simp] lemma lowerKey_gcs : lowerKey "gcs" = "gcs" := rfl

/-! Helper lemmas about `insertA` and the map-entry fold. -/

lemma insertA_append (l : List (String × String)) (k v)
    (h : k ∉ l.map Prod.fst) : insertA l k v = l ++ [(k, v)] := by
  induction l with
  | nil => rfl
  | cons p rest ih =>
    simp only [List.map_cons, List.mem_cons] at h
    push_neg at h
    simp [insertA, Ne.symm h.1, ih h.2]

lemma foldl_mapEntryStep_enc (rs : List (String × String)) :
    ∀ (init : List (String × String)),
    (init.map Prod.fst ++ rs.map Prod.fst).Nodup →
    (rs.map fun p => (p.1, Json.str p.2)).foldl mapEntryStep (init, false) =
      (init ++ rs, false) := by
  induction rs with
  | nil => intro init _; simp
  | cons p rest ih =>
    intro init hnd
    obtain ⟨k, v⟩ := p
    simp only [List.map_cons, List.foldl_cons, mapEntryStep, decodeElemString]
    have hk : k ∉ init.map Prod.fst := by
      intro hmem
      have := (List.nodup_append.mp hnd).2.2
      exact this hmem (by simp)
    rw [insertA_append init k v hk]
    have : ((init ++ [(k, v)]).map Prod.fst ++ rest.map Prod.fst).Nodup := by
      simpa [List.append_assoc] using hnd
    simpa [List.append_assoc] using ih (init ++ [(k, v)]) this

lemma foldl_mapEntryStep_err (rs : List (String × String)) :
    ∀ (acc : List (String × String) × Bool),
    ((rs.map fun p => (p.1, Json.str p.2)).foldl mapEntryStep acc).2 = acc.2 := by
  induction rs with
  | nil => intro acc; rfl
  | cons p rest ih =>
    intro acc
    simp only [List.map_cons, List.foldl_cons, mapEntryStep, decodeElemString]
    simpa using ih _

lemma decodeMapJson_enc (rs : List (String × String))
    (h : (rs.map Prod.fst).Nodup) :
    decodeMapJson none (Json.obj (rs.map fun p => (p.1, Json.str p.2))) =
      (some rs, false) := by
  simp only [decodeMapJson, Option.getD_none]
  rw [foldl_mapEntryStep_enc rs [] (by simpa using h)]
  simp

/-! Helper lemmas: field projections of the defaulting pass. -/

lemma applyDefaults_Redirects (c : AppConfig) (base : String) :
    (applyDefaults c base).Redirects = c.Redirects := by
  simp only [applyDefaults, defaultWebRoot, defaultHookPath, defaultGCSBase]
  split_ifs <;> rfl

lemma applyDefaults_Buckets (c : AppConfig) (base : String) :
    (applyDefaults c base).Buckets = c.Buckets := by
  simp only [applyDefaults, defaultWebRoot, defaultHookPath, defaultGCSBase]
  split_ifs <;> rfl

lemma applyDefaults_Index (c : AppConfig) (base : String) :
    (applyDefaults c base).Index = c.Index := by
  simp only [applyDefaults, defaultWebRoot, defaultHookPath, defaultGCSBase]
  split_ifs <;> rfl

lemma applyDefaults_WebRoot (c : AppConfig) (base : String) :
    (applyDefaults c base).WebRoot = if c.WebRoot = "" then "/" else c.WebRoot := by
  simp only [applyDefaults, defaultWebRoot, defaultHookPath, defaultGCSBase]
  split_ifs <;> rfl

lemma applyDefaults_HookPath (c : AppConfig) (base : String) :
    (applyDefaults c base).HookPath =
      if c.HookPath = "" then "/-/hook/gcs" else c.HookPath := by
  simp only [applyDefaults, defaultWebRoot, defaultHookPath, defaultGCSBase]
  split_ifs <;> first | rfl | simp_all

lemma applyDefaults_GCSBase (c : AppConfig) (base : String) :
    (applyDefaults c base).GCSBase =
      if c.GCSBase = "" then base else c.GCSBase := by
  simp only [applyDefaults, defaultWebRoot, defaultHookPath, defaultGCSBase]
  split_ifs <;> first | rfl | simp_all

/-! Helper lemmas: each component of a field-wise decode, characterised by
the object entries whose key matches that component's tag. -/

lemma decodeFields_Redirects_absent (fs : List (String × Json)) :
    ∀ (c : AppConfig) (err : Bool),
    (∀ p ∈ fs, lowerKey p.1 ≠ "redirects") →
    ((decodeFields c err fs).1).Redirects = c.Redirects := by
  induction fs with
  | nil => intro c err _; rfl
  | cons p rest ih =>
    intro c err h
    have htail := fun q hq => h q (List.mem_cons_of_mem p hq)
    have hhead := h p (List.mem_cons_self p rest)
    obtain ⟨k, v⟩ := p
    simp only [decodeFields]
    split_ifs <;>
      first
        | exact ih _ _ htail
        | exact absurd ‹lowerKey k = "redirects"› hhead

lemma decodeFields_Buckets_absent (fs : List (String × Json)) :
    ∀ (c : AppConfig) (err : Bool),
    (∀ p ∈ fs, lowerKey p.1 ≠ "buckets") →
    ((decodeFields c err fs).1).Buckets = c.Buckets := by
  induction fs with
  | nil => intro c err _; rfl
  | cons p rest ih =>
    intro c err h
    have htail := fun q hq => h q (List.mem_cons_of_mem p hq)
    have hhead := h p (List.mem_cons_self p rest)
    obtain ⟨k, v⟩ := p
    simp only [decodeFields]
    split_ifs <;>
      first
        | exact ih _ _ htail
        | exact absurd ‹lowerKey k = "buckets"› hhead

lemma decodeFields_WebRoot_absent (fs : List (String × Json)) :
    ∀ (c : AppConfig) (err : Bool),
    (∀ p ∈ fs, lowerKey p.1 ≠ "webroot") →
    ((decodeFields c err fs).1).WebRoot = c.WebRoot := by
  induction fs with
  | nil => intro c err _; rfl
  | cons p rest ih =>
    intro c err h
    have htail := fun q hq => h q (List.mem_cons_of_mem p hq)
    have hhead := h p (List.mem_cons_self p rest)
    obtain ⟨k, v⟩ := p
    simp only [decodeFields]
    split_ifs <;>
      first
        | exact ih _ _ htail
        | exact absurd ‹lowerKey k = "webroot"› hhead

lemma decodeFields_Index_absent (fs : List (String × Json)) :
    ∀ (c : AppConfig) (err : Bool),
    (∀ p ∈ fs, lowerKey p.1 ≠ "index") →
    ((decodeFields c err fs).1).Index = c.Index := by
  induction fs with
  | nil => intro c err _; rfl
  | cons p rest ih =>
    intro c err h
    have htail := fun q hq => h q (List.mem_cons_of_mem p hq)
    have hhead := h p (List.mem_cons_self p rest)
    obtain ⟨k, v⟩ := p
    simp only [decodeFields]
    split_ifs <;>
      first
        | exact ih _ _ htail
        | exact absurd ‹lowerKey k = "index"› hhead

lemma decodeFields_HookPath_absent (fs : List (String × Json)) :
    ∀ (c : AppConfig) (err : Bool),
    (∀ p ∈ fs, lowerKey p.1 ≠ "hook") →
    ((decodeFields c err fs).1).HookPath = c.HookPath := by
  induction fs with
  | nil => intro c err _; rfl
  | cons p rest ih =>
    intro c err h
    have htail := fun q hq => h q (List.mem_cons_of_mem p hq)
    have hhead := h p (List.mem_cons_self p rest)
    obtain ⟨k, v⟩ := p
    simp only [decodeFields]
    split_ifs <;>
      first
        | exact ih _ _ htail
        | exact absurd ‹lowerKey k = "hook"› hhead

lemma decodeFields_GCSBase_absent (fs : List (String × Json)) :
    ∀ (c : AppConfig) (err : Bool),
    (∀ p ∈ fs, lowerKey p.1 ≠ "gcs") →
    ((decodeFields c err fs).1).GCSBase = c.GCSBase := by
  induction fs with
  | nil => intro c err _; rfl
  | cons p rest ih =>
    intro c err h
    have htail := fun q hq => h q (List.mem_cons_of_mem p hq)
    have hhead := h p (List.mem_cons_self p rest)
    obtain ⟨k, v⟩ := p
    simp only [decodeFields]
    split_ifs <;>
      first
        | exact ih _ _ htail
        | exact absurd ‹lowerKey k = "gcs"› hhead

lemma decodeFields_WebRoot_const (fs : List (String × Json)) (s : String) :
    ∀ (c : AppConfig) (err : Bool),
    (∀ p ∈ fs, lowerKey p.1 = "webroot" → p.2 = Json.str s) →
    (c.WebRoot = s ∨ ∃ p ∈ fs, lowerKey p.1 = "webroot") →
    ((decodeFields c err fs).1).WebRoot = s := by
  induction fs with
  | nil =>
    intro c err _ hd
    rcases hd with hd | ⟨p, hp, _⟩
    · exact hd
    · exact absurd hp (List.not_mem_nil p)
  | cons p rest ih =>
    intro c err h hd
    have htail := fun q hq => h q (List.mem_cons_of_mem p hq)
    have hhead := h p (List.mem_cons_self p rest)
    have hd2 : lowerKey p.1 ≠ "webroot" →
        (c.WebRoot = s ∨ ∃ q ∈ rest, lowerKey q.1 = "webroot") := by
      intro hne
      rcases hd with hd | ⟨q, hq, hkey⟩
      · exact Or.inl hd
      · rcases List.mem_cons.mp hq with heq | hq2
        · exact absurd (heq ▸ hkey) hne
        · exact Or.inr ⟨q, hq2, hkey⟩
    obtain ⟨k, v⟩ := p
    simp only [decodeFields]
    split_ifs with h1 h2 h3 h4 h5 h6
    · refine ih _ _ htail (hd2 ?_)
      intro hk
      exact absurd (h1.symm.trans hk) (by decide)
    · refine ih _ _ htail (hd2 ?_)
      intro hk
      exact absurd (h2.symm.trans hk) (by decide)
    · have hv : v = Json.str s := hhead h3
      subst hv
      exact ih _ _ htail (Or.inl rfl)
    · refine ih _ _ htail (hd2 ?_)
      intro hk
      exact absurd (h4.symm.trans hk) (by decide)
    · refine ih _ _ htail (hd2 ?_)
      intro hk
      exact absurd (h5.symm.trans hk) (by decide)
    · refine ih _ _ htail (hd2 ?_)
      intro hk
      exact absurd (h6.symm.trans hk) (by decide)
    · exact ih _ _ htail (hd2 h3)

lemma decodeFields_HookPath_const (fs : List (String × Json)) (s : String) :
    ∀ (c : AppConfig) (err : Bool),
    (∀ p ∈ fs, lowerKey p.1 = "hook" → p.2 = Json.str s) →
    (c.HookPath = s ∨ ∃ p ∈ fs, lowerKey p.1 = "hook") →
    ((decodeFields c err fs).1).HookPath = s := by
  induction fs with
  | nil =>
    intro c err _ hd
    rcases hd with hd | ⟨p, hp, _⟩
    · exact hd
    · exact absurd hp (List.not_mem_nil p)
  | cons p rest ih =>
    intro c err h hd
    have htail := fun q hq => h q (List.mem_cons_of_mem p hq)
    have hhead := h p (List.mem_cons_self p rest)
    have hd2 : lowerKey p.1 ≠ "hook" →
        (c.HookPath = s ∨ ∃ q ∈ rest, lowerKey q.1 = "hook") := by
      intro hne
      rcases hd with hd | ⟨q, hq, hkey⟩
      · exact Or.inl hd
      · rcases List.mem_cons.mp hq with heq | hq2
        · exact absurd (heq ▸ hkey) hne
        · exact Or.inr ⟨q, hq2, hkey⟩
    obtain ⟨k, v⟩ := p
    simp only [decodeFields]
    split_ifs with h1 h2 h3 h4 h5 h6
    · refine ih _ _ htail (hd2 ?_)
      intro hk
      exact absurd (h1.symm.trans hk) (by decide)
    · refine ih _ _ htail (hd2 ?_)
      intro hk
      exact absurd (h2.symm.trans hk) (by decide)
    · refine ih _ _ htail (hd2 ?_)
      intro hk
      exact absurd (h3.symm.trans hk) (by decide)
    · refine ih _ _ htail (hd2 ?_)
      intro hk
      exact absurd (h4.symm.trans hk) (by decide)
    · have hv : v = Json.str s := hhead h5
      subst hv
      exact ih _ _ htail (Or.inl rfl)
    · refine ih _ _ htail (hd2 ?_)
      intro hk
      exact absurd (h6.symm.trans hk) (by decide)
    · exact ih _ _ htail (hd2 h5)

lemma decodeFields_GCSBase_const (fs : List (String × Json)) (s : String) :
    ∀ (c : AppConfig) (err : Bool),
    (∀ p ∈ fs, lowerKey p.1 = "gcs" → p.2 = Json.str s) →
    (c.GCSBase = s ∨ ∃ p ∈ fs, lowerKey p.1 = "gcs") →
    ((decodeFields c err fs).1).GCSBase = s := by
  induction fs with
  | nil =>
    intro c err _ hd
    rcases hd with hd | ⟨p, hp, _⟩
    · exact hd
    · exact absurd hp (List.not_mem_nil p)
  | cons p rest ih =>
    intro c err h hd
    have htail := fun q hq => h q (List.mem_cons_of_mem p hq)
    have hhead := h p (List.mem_cons_self p rest)
    have hd2 : lowerKey p.1 ≠ "gcs" →
        (c.GCSBase = s ∨ ∃ q ∈ rest, lowerKey q.1 = "gcs") := by
      intro hne
      rcases hd with hd | ⟨q, hq, hkey⟩
      · exact Or.inl hd
      · rcases List.mem_cons.mp hq with heq | hq2
        · exact absurd (heq ▸ hkey) hne
        · exact Or.inr ⟨q, hq2, hkey⟩
    obtain ⟨k, v⟩ := p
    simp only [decodeFields]
    split_ifs with h1 h2 h3 h4 h5 h6
    · refine ih _ _ htail (hd2 ?_)
      intro hk
      exact absurd (h1.symm.trans hk) (by decide)
    · refine ih _ _ htail (hd2 ?_)
      intro hk
      exact absurd (h2.symm.trans hk) (by decide)
    · refine ih _ _ htail (hd2 ?_)
      intro hk
      exact absurd (h3.symm.trans hk) (by decide)
    · refine ih _ _ htail (hd2 ?_)
      intro hk
      exact absurd (h4.symm.trans hk) (by decide)
    · refine ih _ _ htail (hd2 ?_)
      intro hk
      exact absurd (h5.symm.trans hk) (by decide)
    · have hv : v = Json.str s := hhead h6
      subst hv
      exact ih _ _ htail (Or.inl rfl)
    · exact ih _ _ htail (hd2 h6)

/-! Helper lemmas: one decoding step for each literal tag at the head of the
field list. -/

lemma decodeFields_nil (c : AppConfig) (err : Bool) :
    decodeFields c err [] = (c, err) := rfl

lemma decodeFields_cons_redirects (c : AppConfig) (err : Bool) (v : Json)
    (rest : List (String × Json)) :
    decodeFields c err (("redirects", v) :: rest) =
      decodeFields { c with Redirects := (decodeMapJson c.Redirects v).1 }
        (err || (decodeMapJson c.Redirects v).2) rest := rfl

lemma decodeFields_cons_buckets (c : AppConfig) (err : Bool) (v : Json)
    (rest : List (String × Json)) :
    decodeFields c err (("buckets", v) :: rest) =
      decodeFields { c with Buckets := (decodeMapJson c.Buckets v).1 }
        (err || (decodeMapJson c.Buckets v).2) rest := rfl

lemma decodeFields_cons_webroot (c : AppConfig) (err : Bool) (v : Json)
    (rest : List (String × Json)) :
    decodeFields c err (("webroot", v) :: rest) =
      decodeFields { c with WebRoot := (decodeStringJson c.WebRoot v).1 }
        (err || (decodeStringJson c.WebRoot v).2) rest := rfl

lemma decodeFields_cons_index (c : AppConfig) (err : Bool) (v : Json)
    (rest : List (String × Json)) :
    decodeFields c err (("index", v) :: rest) =
      decodeFields { c with Index := (decodeStringJson c.Index v).1 }
        (err || (decodeStringJson c.Index v).2) rest := rfl

lemma decodeFields_cons_hook (c : AppConfig) (err : Bool) (v : Json)
    (rest : List (String × Json)) :
    decodeFields c err (("hook", v) :: rest) =
      decodeFields { c with HookPath := (decodeStringJson c.HookPath v).1 }
        (err || (decodeStringJson c.HookPath v).2) rest := rfl

lemma decodeFields_cons_gcs (c : AppConfig) (err : Bool) (v : Json)
    (rest : List (String × Json)) :
    decodeFields c err (("gcs", v) :: rest) =
      decodeFields { c with GCSBase := (decodeStringJson c.GCSBase v).1 }
        (err || (decodeStringJson c.GCSBase v).2) rest := rfl

lemma decodeMapJson_enc_err (old : StrMap) (l : List (String × String)) :
    (decodeMapJson old (Json.obj (l.map fun p => (p.1, Json.str p.2)))).2 = false := by
  simp only [decodeMapJson]
  exact foldl_mapEntryStep_err l _

/-! The claims, one theorem each. -/

/-- C4: an `os.Open` failure is returned to the caller unchanged as the
error, the package-global config value is not modified, and no file handle
is ever acquired. -/
theorem readConfig_open_error_preserves_config (msg : String) (c : AppConfig)
    (base : String) :
    readConfig (.openError msg) c base = (c, some (.ioErr msg), []) := rfl

/-- C1 counterexample: the claim says every `DecodeError` return — whether
from invalid JSON or from a structural mismatch — leaves the process-wide
slot exactly as before the call. The document with fields `webroot` bound
to the string `/x` and `hook` bound to the number `3` is a structural
mismatch, so `readConfig` returns a decode error, yet the global slot has
been mutated: its `WebRoot` is now `/x`, not the prior zero value. -/
theorem readConfig_structural_error_mutates_config :
    ((readConfig (.parsed (.obj [("webroot", Json.str "/x"), ("hook", Json.num 3)]))
        zeroConfig "B").2.1 = some LoadError.decodeErr) ∧
    (readConfig (.parsed (.obj [("webroot", Json.str "/x"), ("hook", Json.num 3)]))
        zeroConfig "B").1 ≠ zeroConfig := by
  refine ⟨rfl, fun hEq => ?_⟩
  have hW : ("/x" : String) = "" := congrArg AppConfig.WebRoot hEq
  exact absurd hW (by decide)

/-- C1 (amended): if the `DecodeError` arises because the file contents are
not one syntactically valid JSON value, the decoder writes nothing and the
process-wide slot is left exactly as it was before the call; a structural
mismatch, in contrast, may leave the slot partially updated. -/
theorem readConfig_syntax_error_preserves_config (c : AppConfig) (base : String) :
    readConfig .invalidJson c base =
      (c, some LoadError.decodeErr, [.opened, .closed]) := rfl

/-- C5: loading the document with a single field `buckets` mapping
`default` to `b1` into the zero-valued global slot succeeds and produces
exactly the defaulted `WebRoot`, the defaulted hook pattern, the injected
storage base, the one-entry bucket map, and a nil redirect map. -/
theorem readConfig_minimal_buckets_scenario (base : String) :
    readConfig (.parsed (.obj [("buckets", .obj [("default", .str "b1")])]))
      zeroConfig base =
    ({ Redirects := none, Buckets := some [("default", "b1")], WebRoot := "/",
       Index := "", HookPath := "/-/hook/gcs", GCSBase := base }, none,
     [.opened, .closed]) := rfl

/-- C7: the routine performs no validation beyond structural decoding on
the contents of `Redirects` and `Buckets`: any document binding both maps
to objects of arbitrary string values — `Buckets` may lack a `default`
key, redirect targets may end in a separator or carry a query string —
loads without error. -/
theorem readConfig_no_content_validation (base : String)
    (rs bs : List (String × String)) :
    (readConfig (.parsed (.obj
      [("redirects", Json.obj (rs.map fun p => (p.1, Json.str p.2))),
       ("buckets", Json.obj (bs.map fun p => (p.1, Json.str p.2)))]))
      zeroConfig base).2.1 = none := by
  simp only [readConfig, decodeAppConfig, decodeFields_cons_redirects,
    decodeFields_cons_buckets, decodeFields, decodeMapJson_enc_err,
    Bool.or_false, Bool.false_or]
  rfl

/-- C8: the three default-filling steps touch disjoint fields, so applying
them in any of the six orders yields the same configuration as the
implemented order (`WebRoot`, then `HookPath`, then `GCSBase`). -/
theorem defaulting_steps_commute (c : AppConfig) (base : String) :
    defaultGCSBase base (defaultHookPath (defaultWebRoot c)) = applyDefaults c base ∧
    defaultGCSBase base (defaultWebRoot (defaultHookPath c)) = applyDefaults c base ∧
    defaultHookPath (defaultGCSBase base (defaultWebRoot c)) = applyDefaults c base ∧
    defaultHookPath (defaultWebRoot (defaultGCSBase base c)) = applyDefaults c base ∧
    defaultWebRoot (defaultGCSBase base (defaultHookPath c)) = applyDefaults c base ∧
    defaultWebRoot (defaultHookPath (defaultGCSBase base c)) = applyDefaults c base := by
  obtain ⟨R, B, W, I, H, G⟩ := c
  by_cases hW : W = "" <;> by_cases hH : H = "" <;> by_cases hG : G = "" <;>
    simp [applyDefaults, defaultWebRoot, defaultHookPath, defaultGCSBase,
      hW, hH, hG]

/-- C9: on every exit path reached after the file was opened — success or
decode failure — the deferred `Close` releases the read handle exactly once
before the function returns. -/
theorem readConfig_closes_handle_once (input : FileRead) (c : AppConfig)
    (base : String) (h : ∀ msg, input ≠ FileRead.openError msg) :
    (readConfig input c base).2.2 = [FileEvent.opened, FileEvent.closed] ∧
    ((readConfig input c base).2.2).count FileEvent.closed = 1 := by
  cases input with
  | openError msg => exact absurd rfl (h msg)
  | invalidJson => exact ⟨rfl, rfl⟩
  | parsed j =>
    simp only [readConfig]
    split_ifs <;> exact ⟨rfl, rfl⟩

/-- Witness for C9 at a concrete post-open input. -/
theorem readConfig_closes_handle_once_witness :
    (readConfig .invalidJson zeroConfig "B").2.2 =
      [FileEvent.opened, FileEvent.closed] ∧
    ((readConfig .invalidJson zeroConfig "B").2.2).count FileEvent.closed = 1 :=
  readConfig_closes_handle_once .invalidJson zeroConfig "B"
    (fun _ h => FileRead.noConfusion h)

/-- C2: for every valid JSON configuration document — an object whose
decode succeeds from the zero-valued global — each of the keys `webroot`,
`hook`, `gcs` that is omitted or bound to the empty string leaves its field
holding exactly the documented default after the load: `/`, the hook
pattern, and the injected storage base respectively. -/
theorem readConfig_omitted_fields_get_defaults (fs : List (String × Json))
    (base : String)
    (hok : (readConfig (.parsed (.obj fs)) zeroConfig base).2.1 = none) :
    ((∀ p ∈ fs, lowerKey p.1 = "webroot" → p.2 = Json.str "") →
      ((readConfig (.parsed (.obj fs)) zeroConfig base).1).WebRoot = "/") ∧
    ((∀ p ∈ fs, lowerKey p.1 = "hook" → p.2 = Json.str "") →
      ((readConfig (.parsed (.obj fs)) zeroConfig base).1).HookPath = "/-/hook/gcs") ∧
    ((∀ p ∈ fs, lowerKey p.1 = "gcs" → p.2 = Json.str "") →
      ((readConfig (.parsed (.obj fs)) zeroConfig base).1).GCSBase = base) := by
  have hflag : (decodeFields zeroConfig false fs).2 = false := by
    cases hb : (decodeFields zeroConfig false fs).2 with
    | false => rfl
    | true =>
      exfalso
      simp [readConfig, decodeAppConfig, hb] at hok
  have hres : (readConfig (.parsed (.obj fs)) zeroConfig base).1
      = applyDefaults (decodeFields zeroConfig false fs).1 base := by
    simp [readConfig, decodeAppConfig, hflag]
  refine ⟨fun hw => ?_, fun hh => ?_, fun hg => ?_⟩
  · have h0 : ((decodeFields zeroConfig false fs).1).WebRoot = "" :=
      decodeFields_WebRoot_const fs "" zeroConfig false hw (Or.inl rfl)
    rw [hres, applyDefaults_WebRoot, h0, if_pos rfl]
  · have h0 : ((decodeFields zeroConfig false fs).1).HookPath = "" :=
      decodeFields_HookPath_const fs "" zeroConfig false hh (Or.inl rfl)
    rw [hres, applyDefaults_HookPath, h0, if_pos rfl]
  · have h0 : ((decodeFields zeroConfig false fs).1).GCSBase = "" :=
      decodeFields_GCSBase_const fs "" zeroConfig false hg (Or.inl rfl)
    rw [hres, applyDefaults_GCSBase, h0, if_pos rfl]

/-- Witness for C2 on the document with a single `buckets` field. -/
theorem readConfig_omitted_fields_get_defaults_witness :
    ((readConfig (.parsed (.obj [("buckets", .obj [("default", .str "b1")])]))
        zeroConfig "B").1).WebRoot = "/" ∧
    ((readConfig (.parsed (.obj [("buckets", .obj [("default", .str "b1")])]))
        zeroConfig "B").1).HookPath = "/-/hook/gcs" ∧
    ((readConfig (.parsed (.obj [("buckets", .obj [("default", .str "b1")])]))
        zeroConfig "B").1).GCSBase = "B" := by
  have h := readConfig_omitted_fields_get_defaults
    [("buckets", .obj [("default", .str "b1")])] "B" rfl
  refine ⟨h.1 ?_, h.2.1 ?_, h.2.2 ?_⟩ <;>
    · intro p hp
      rcases List.mem_singleton.mp hp with rfl
      intro hk
      exact absurd hk (by decide)

/-- C3: for every valid JSON configuration document — an object whose
decode succeeds from the zero-valued global — each of the keys `webroot`,
`hook`, `gcs` that is supplied with a non-empty string value leaves its
field holding exactly that value after the load: the defaulting step never
overrides an explicitly supplied non-empty value. -/
theorem readConfig_explicit_fields_preserved (fs : List (String × Json))
    (base vw vh vg : String)
    (hok : (readConfig (.parsed (.obj fs)) zeroConfig base).2.1 = none) :
    (vw ≠ "" → (∀ p ∈ fs, lowerKey p.1 = "webroot" → p.2 = Json.str vw) →
      (∃ p ∈ fs, lowerKey p.1 = "webroot") →
      ((readConfig (.parsed (.obj fs)) zeroConfig base).1).WebRoot = vw) ∧
    (vh ≠ "" → (∀ p ∈ fs, lowerKey p.1 = "hook" → p.2 = Json.str vh) →
      (∃ p ∈ fs, lowerKey p.1 = "hook") →
      ((readConfig (.parsed (.obj fs)) zeroConfig base).1).HookPath = vh) ∧
    (vg ≠ "" → (∀ p ∈ fs, lowerKey p.1 = "gcs" → p.2 = Json.str vg) →
      (∃ p ∈ fs, lowerKey p.1 = "gcs") →
      ((readConfig (.parsed (.obj fs)) zeroConfig base).1).GCSBase = vg) := by
  have hflag : (decodeFields zeroConfig false fs).2 = false := by
    cases hb : (decodeFields zeroConfig false fs).2 with
    | false => rfl
    | true =>
      exfalso
      simp [readConfig, decodeAppConfig, hb] at hok
  have hres : (readConfig (.parsed (.obj fs)) zeroConfig base).1
      = applyDefaults (decodeFields zeroConfig false fs).1 base := by
    simp [readConfig, decodeAppConfig, hflag]
  refine ⟨fun hne hall hex => ?_, fun hne hall hex => ?_, fun hne hall hex => ?_⟩
  · have h0 : ((decodeFields zeroConfig false fs).1).WebRoot = vw :=
      decodeFields_WebRoot_const fs vw zeroConfig false hall (Or.inr hex)
    rw [hres, applyDefaults_WebRoot, h0, if_neg hne]
  · have h0 : ((decodeFields zeroConfig false fs).1).HookPath = vh :=
      decodeFields_HookPath_const fs vh zeroConfig false hall (Or.inr hex)
    rw [hres, applyDefaults_HookPath, h0, if_neg hne]
  · have h0 : ((decodeFields zeroConfig false fs).1).GCSBase = vg :=
      decodeFields_GCSBase_const fs vg zeroConfig false hall (Or.inr hex)
    rw [hres, applyDefaults_GCSBase, h0, if_neg hne]

/-- Witness for C3 on a document supplying all three optional strings. -/
theorem readConfig_explicit_fields_preserved_witness :
    ((readConfig (.parsed (.obj [("webroot", .str "/w"), ("hook", .str "/hk"),
        ("gcs", .str "G")])) zeroConfig "B").1).WebRoot = "/w" ∧
    ((readConfig (.parsed (.obj [("webroot", .str "/w"), ("hook", .str "/hk"),
        ("gcs", .str "G")])) zeroConfig "B").1).HookPath = "/hk" ∧
    ((readConfig (.parsed (.obj [("webroot", .str "/w"), ("hook", .str "/hk"),
        ("gcs", .str "G")])) zeroConfig "B").1).GCSBase = "G" := by
  have h := readConfig_explicit_fields_preserved
    [("webroot", .str "/w"), ("hook", .str "/hk"), ("gcs", .str "G")]
    "B" "/w" "/hk" "G" rfl
  refine ⟨h.1 (by decide) ?_ ?_, h.2.1 (by decide) ?_ ?_, h.2.2 (by decide) ?_ ?_⟩
  · intro p hp
    simp only [List.mem_cons, List.not_mem_nil, or_false] at hp
    rcases hp with rfl | rfl | rfl
    · intro _; rfl
    · intro hk; exact absurd hk (by decide)
    · intro hk; exact absurd hk (by decide)
  · exact ⟨("webroot", .str "/w"), List.mem_cons_self _ _, by decide⟩
  · intro p hp
    simp only [List.mem_cons, List.not_mem_nil, or_false] at hp
    rcases hp with rfl | rfl | rfl
    · intro hk; exact absurd hk (by decide)
    · intro _; rfl
    · intro hk; exact absurd hk (by decide)
  · exact ⟨("hook", .str "/hk"), by simp, by decide⟩
  · intro p hp
    simp only [List.mem_cons, List.not_mem_nil, or_false] at hp
    rcases hp with rfl | rfl | rfl
    · intro hk; exact absurd hk (by decide)
    · intro hk; exact absurd hk (by decide)
    · intro _; rfl
  · exact ⟨("gcs", .str "G"), by simp, by decide⟩

/-- C6: encoding a fully-populated `appConfig` under the declared field
tags and loading the document back into the zero-valued global yields the
original value field for field (both maps allocated with distinct keys, the
three defaulted strings non-empty, so no default can fire). -/
theorem readConfig_encode_roundTrip (c : AppConfig) (base : String)
    (rs bs : List (String × String))
    (hr : c.Redirects = some rs) (hb : c.Buckets = some bs)
    (hnr : (rs.map Prod.fst).Nodup) (hnb : (bs.map Prod.fst).Nodup)
    (hw : c.WebRoot ≠ "") (hh : c.HookPath ≠ "") (hg : c.GCSBase ≠ "") :
    readConfig (.parsed (encodeAppConfig c)) zeroConfig base =
      (c, none, [.opened, .closed]) := by
  have hdec : decodeAppConfig zeroConfig (encodeAppConfig c) =
      ({ Redirects := some rs, Buckets := some bs, WebRoot := c.WebRoot,
         Index := c.Index, HookPath := c.HookPath, GCSBase := c.GCSBase },
       false) := by
    rw [encodeAppConfig, hr, hb]
    simp only [encodeStrMap, decodeAppConfig, decodeFields_cons_redirects,
      decodeFields_cons_buckets, decodeFields_cons_webroot,
      decodeFields_cons_index, decodeFields_cons_hook, decodeFields_cons_gcs,
      decodeFields_nil, decodeStringJson, zeroConfig,
      decodeMapJson_enc rs hnr, decodeMapJson_enc bs hnb,
      Bool.or_false, Bool.false_or]
  have hc : c =
      ({ Redirects := some rs, Buckets := some bs, WebRoot := c.WebRoot,
         Index := c.Index, HookPath := c.HookPath,
         GCSBase := c.GCSBase } : AppConfig) := by
    rw [← hr, ← hb]
  simp only [readConfig, hdec]
  rw [if_neg (by simp)]
  refine Prod.ext ?_ rfl
  rw [← hc] at hdec ⊢
  simp only [applyDefaults, defaultWebRoot, defaultHookPath, defaultGCSBase,
    if_neg hw, if_neg hh, if_neg hg]

/-- Witness for C6 at a concrete fully-populated configuration. -/
theorem readConfig_encode_roundTrip_witness :
    readConfig (.parsed (encodeAppConfig
      { Redirects := some [("a.com/x", "https://y.example")],
        Buckets := some [("default", "b1"), ("x.com", "b2")],
        WebRoot := "/w", Index := "index.html", HookPath := "/hk",
        GCSBase := "G" })) zeroConfig "B" =
      ({ Redirects := some [("a.com/x", "https://y.example")],
         Buckets := some [("default", "b1"), ("x.com", "b2")],
         WebRoot := "/w", Index := "index.html", HookPath := "/hk",
         GCSBase := "G" }, none, [.opened, .closed]) :=
  readConfig_encode_roundTrip _ "B" [("a.com/x", "https://y.example")]
    [("default", "b1"), ("x.com", "b2")] rfl rfl (by decide) (by decide)
    (by decide) (by decide) (by decide)

/-- C10: the decoder writes into the pre-existing global `config` value,
not into a fresh zero value: on a load from any prior configuration, every
top-level field whose tag is absent from the JSON object keeps the value it
held before the call (for the three defaulted strings, provided that prior
value was non-zero, since an empty prior value would be re-defaulted), so a
second load from a different document mixes fields of both documents. -/
theorem readConfig_decodes_into_existing_config (c : AppConfig)
    (base : String) (fs : List (String × Json)) :
    ((∀ p ∈ fs, lowerKey p.1 ≠ "redirects") →
      ((readConfig (.parsed (.obj fs)) c base).1).Redirects = c.Redirects) ∧
    ((∀ p ∈ fs, lowerKey p.1 ≠ "buckets") →
      ((readConfig (.parsed (.obj fs)) c base).1).Buckets = c.Buckets) ∧
    ((∀ p ∈ fs, lowerKey p.1 ≠ "webroot") → c.WebRoot ≠ "" →
      ((readConfig (.parsed (.obj fs)) c base).1).WebRoot = c.WebRoot) ∧
    ((∀ p ∈ fs, lowerKey p.1 ≠ "index") →
      ((readConfig (.parsed (.obj fs)) c base).1).Index = c.Index) ∧
    ((∀ p ∈ fs, lowerKey p.1 ≠ "hook") → c.HookPath ≠ "" →
      ((readConfig (.parsed (.obj fs)) c base).1).HookPath = c.HookPath) ∧
    ((∀ p ∈ fs, lowerKey p.1 ≠ "gcs") → c.GCSBase ≠ "" →
      ((readConfig (.parsed (.obj fs)) c base).1).GCSBase = c.GCSBase) := by
  refine ⟨fun habs => ?_, fun habs => ?_, fun habs hne => ?_,
    fun habs => ?_, fun habs hne => ?_, fun habs hne => ?_⟩
  · have h0 := decodeFields_Redirects_absent fs c false habs
    simp only [readConfig, decodeAppConfig]
    split_ifs
    · exact h0
    · rw [applyDefaults_Redirects]; exact h0
  · have h0 := decodeFields_Buckets_absent fs c false habs
    simp only [readConfig, decodeAppConfig]
    split_ifs
    · exact h0
    · rw [applyDefaults_Buckets]; exact h0
  · have h0 := decodeFields_WebRoot_absent fs c false habs
    simp only [readConfig, decodeAppConfig]
    split_ifs
    · exact h0
    · rw [applyDefaults_WebRoot, h0, if_neg hne]
  · have h0 := decodeFields_Index_absent fs c false habs
    simp only [readConfig, decodeAppConfig]
    split_ifs
    · exact h0
    · rw [applyDefaults_Index]; exact h0
  · have h0 := decodeFields_HookPath_absent fs c false habs
    simp only [readConfig, decodeAppConfig]
    split_ifs
    · exact h0
    · rw [applyDefaults_HookPath, h0, if_neg hne]
  · have h0 := decodeFields_GCSBase_absent fs c false habs
    simp only [readConfig, decodeAppConfig]
    split_ifs
    · exact h0
    · rw [applyDefaults_GCSBase, h0, if_neg hne]

/-- Witness for C10: a second load, of a document that only sets `webroot`,
into a fully-populated prior configuration keeps the prior buckets, index,
hook and storage base — a mix of both documents. -/
theorem readConfig_decodes_into_existing_config_witness :
    ((readConfig (.parsed (.obj [("webroot", Json.str "/w2")]))
      { Redirects := some [("a", "b")], Buckets := some [("default", "x")],
        WebRoot := "/w", Index := "idx", HookPath := "/h", GCSBase := "G" }
      "B").1).Buckets = some [("default", "x")] ∧
    ((readConfig (.parsed (.obj [("webroot", Json.str "/w2")]))
      { Redirects := some [("a", "b")], Buckets := some [("default", "x")],
        WebRoot := "/w", Index := "idx", HookPath := "/h", GCSBase := "G" }
      "B").1).Index = "idx" ∧
    ((readConfig (.parsed (.obj [("webroot", Json.str "/w2")]))
      { Redirects := some [("a", "b")], Buckets := some [("default", "x")],
        WebRoot := "/w", Index := "idx", HookPath := "/h", GCSBase := "G" }
      "B").1).GCSBase = "G" := by
  have h := readConfig_decodes_into_existing_config
    { Redirects := some [("a", "b")], Buckets := some [("default", "x")],
      WebRoot := "/w", Index := "idx", HookPath := "/h", GCSBase := "G" }
    "B" [("webroot", Json.str "/w2")]
  refine ⟨h.2.1 ?_, h.2.2.2.1 ?_, h.2.2.2.2.2 ?_ (by decide)⟩ <;>
    · intro p hp
      rcases List.mem_singleton.mp hp with rfl
      decide
